import Mathlib

/-!
Shallow embedding of the core detection-loop state and operations of
`smoke-classifier/detect_fire.py`, together with theorems checking the
natural-language specification against the code.

Modelling conventions:
* Python floats (classifier scores, processing times, `time.time()` values)
  are embedded as `ℚ`; Python ints (pixel coordinates, epoch timestamps,
  counters) as `Int`/`Nat`.
* Database tables (`scores`, `alerts`) are embedded as lists of row
  structures; a SQL query result that a function consumes is passed to the
  embedded function as an explicit list argument.
* File-system side effects (downloads, deletions, image subtraction) are
  elided: the embedded functions return the data that the source computes
  and the new value of any mutated list.
-/

namespace Firecam

/-- One classified image segment, as produced by `segmentImage`/`classify`:
bounding-box pixel coordinates plus the classifier `score`.  The three
optional fields model the `HistAvg`/`HistMax`/`HistNumSamples` keys that
`postFilter` attaches to the selected segment dictionary (absent, i.e.
`none`, until attached). -/
structure SegmentInfo where
  minX : Int
  minY : Int
  maxX : Int
  maxY : Int
  score : ℚ
  histAvg : Option ℚ := none
  histMax : Option ℚ := none
  histNumSamples : Option Int := none
  deriving Repr, DecidableEq

/-- One row of the grouped history query issued by `postFilter` over the
`scores` table: `SELECT MinX,MinY,MaxX,MaxY, count(*) as cnt, avg(score) as
avgs, max(score) as maxs ... GROUP BY MinX,MinY,MaxX,MaxY`. -/
structure ScoreRow where
  minx : Int
  miny : Int
  maxx : Int
  maxy : Int
  cnt : Int
  avgs : ℚ
  maxs : ℚ
  deriving Repr, DecidableEq

/-- One row of the `alerts` table written by `checkAndUpdateAlerts`. -/
structure AlertRow where
  cameraName : String
  timestamp : Int
  imageID : String
  deriving Repr, DecidableEq

/-- The `timeTracker` dict created by `initializeTimeTracker`. -/
structure TimeTracker where
  totalTime : ℚ
  numSamples : Nat
  timePerSample : ℚ
  deriving Repr, DecidableEq

/-- One entry of the `deferredImages` queue, as appended by
`addToDeferredImages`. -/
structure DeferredEntry where
  timestamp : Int
  cameraID : String
  imgPath : String
  md5 : String
  oldWait : Int
  deriving Repr, DecidableEq

/-- Embedding of `initializeTimeTracker` (detect_fire.py lines 663-673). -/
def initializeTimeTracker : TimeTracker :=
  { totalTime := 0, numSamples := 0, timePerSample := 3 }

/-- Embedding of `updateTimeTracker` (detect_fire.py lines 642-660):
accumulate `processingTime` into `totalTime`, bump `numSamples`, and once
`numSamples > 50` recompute `timePerSample` as the average and reset both
accumulators. -/
def updateTimeTracker (timeTracker : TimeTracker) (processingTime : ℚ) : TimeTracker :=
  let t1 : TimeTracker :=
    { timeTracker with
      totalTime := timeTracker.totalTime + processingTime,
      numSamples := timeTracker.numSamples + 1 }
  if t1.numSamples > 50 then
    { t1 with
      timePerSample := t1.totalTime / (t1.numSamples : ℚ),
      totalTime := 0,
      numSamples := 0 }
  else
    t1

/-- Embedding of `checkAndUpdateAlerts` (detect_fire.py lines 411-439).
The `alerts` list stands for the alerts table; the SQL query
`SELECT * FROM alerts where CameraName='camera' and timestamp > ts - 60*60*2`
is embedded as a filter over that list.  Returns the boolean result together
with the new state of the alerts table. -/
def checkAndUpdateAlerts (alerts : List AlertRow) (camera : String) (timestamp : Int)
    (imageID : String) : Bool × List AlertRow :=
  let dbResult := alerts.filter
    (fun r => r.cameraName == camera && decide (timestamp - 60 * 60 * 2 < r.timestamp))
  if dbResult.length > 0 then
    (false, alerts)
  else
    (true, alerts ++ [{ cameraName := camera, timestamp := timestamp, imageID := imageID }])

/-- Embedding of `expectedDrainSeconds` (detect_fire.py lines 629-639). -/
def expectedDrainSeconds (deferredImages : List DeferredEntry)
    (timeTracker : TimeTracker) : ℚ :=
  (deferredImages.length : ℚ) * timeTracker.timePerSample

/-- Embedding of `getDeferrredImgageInfo` (detect_fire.py lines 676-698).
Returns the `queueFull` boolean, the optionally dequeued head entry, and the
new state of the `deferredImages` queue (the source mutates the list with
`del deferredImages[0]`). -/
def getDeferrredImgageInfo (deferredImages : List DeferredEntry)
    (timeTracker : TimeTracker) (minusMinutes : Int) (currentTime : ℚ) :
    Bool × Option DeferredEntry × List DeferredEntry :=
  if minusMinutes = 0 then (false, none, deferredImages)
  else
    match deferredImages with
    | [] => (false, none, deferredImages)
    | img :: rest =>
      let minusSeconds : Int := 60 * minusMinutes
      let queueFull : Bool :=
        decide (expectedDrainSeconds (img :: rest) timeTracker ≥ (minusSeconds : ℚ))
      if queueFull || decide ((img.timestamp : ℚ) + (minusSeconds : ℚ) < currentTime) then
        (queueFull, some img, rest)
      else
        (queueFull, none, img :: rest)

/-- Embedding of `addToDeferredImages` (detect_fire.py lines 701-724).  The
freshly fetched image is represented by its data `(cameraID, timestamp,
imgPath, md5)`; the function appends a new entry unless one for the same
camera is already queued, in which case the queue is left unchanged (the
source only logs and sleeps in that branch). -/
def addToDeferredImages (deferredImages : List DeferredEntry)
    (cameraID : String) (timestamp : Int) (imgPath : String) (md5 : String) :
    List DeferredEntry :=
  let sameCam := deferredImages.filter (fun x => x.cameraID == cameraID)
  if sameCam.length > 0 then deferredImages
  else
    deferredImages ++
      [{ timestamp := timestamp, cameraID := cameraID, imgPath := imgPath,
         md5 := md5, oldWait := 0 }]

/-- Embedding of `genDiffImageFromDeferred` (detect_fire.py lines 727-758).
The refetch of the same camera is represented by its data `(newTimestamp,
newMd5)` (the source's `getNextImage` with an explicit `cameraID` returns
that camera's fresh image).  If the hash is unchanged the entry is either
re-appended at the tail with refreshed timestamp and accumulated wait, or
dropped (timeout), and no image is produced (`none`); otherwise the entry's
data is returned for difference-image processing (`some`).  File deletions
are elided.  Returns the produced result and the new queue. -/
def genDiffImageFromDeferred (deferredImageInfo : DeferredEntry)
    (deferredImages : List DeferredEntry) (minusMinutes : Int)
    (newTimestamp : Int) (newMd5 : String) :
    Option (String × Int) × List DeferredEntry :=
  let timeDiff := newTimestamp - deferredImageInfo.timestamp
  if newMd5 == deferredImageInfo.md5 then
    if timeDiff + deferredImageInfo.oldWait < min (2 * 60 * minusMinutes) (5 * 60) then
      (none,
       deferredImages ++
         [{ deferredImageInfo with
            timestamp := newTimestamp,
            oldWait := deferredImageInfo.oldWait + timeDiff }])
    else
      (none, deferredImages)
  else
    (some (deferredImageInfo.cameraID, newTimestamp), deferredImages)

/-- The at-most-one-entry-per-camera invariant of the deferred queue. -/
def uniqueCameraIDs (q : List DeferredEntry) : Prop :=
  (q.map (fun e => e.cameraID)).Nodup

/-- The box-equality test of `postFilter`'s inner loop (detect_fire.py lines
236-237): a history row applies to a segment exactly when all four
bounding-box coordinates agree. -/
def matchesBox (row : ScoreRow) (seg : SegmentInfo) : Bool :=
  row.minx == seg.minX && row.miny == seg.minY &&
    row.maxx == seg.maxX && row.maxy == seg.maxY

/-- The per-row detection threshold computed by `postFilter` (detect_fire.py
lines 238-241): `threshold = (maxs + 1)/2` then `threshold = max(threshold,
maxs + 0.2)`. -/
def rowThreshold (row : ScoreRow) : ℚ :=
  max ((row.maxs + 1) / 2) (row.maxs + 0.2)

/-- The dictionary mutation of `postFilter` (detect_fire.py lines 246-248)
that attaches the matching row's history statistics to the selected
segment. -/
def attachHist (seg : SegmentInfo) (row : ScoreRow) : SegmentInfo :=
  { seg with histAvg := some row.avgs, histMax := some row.maxs,
             histNumSamples := some row.cnt }

/-- The inner `for row in dbResult` loop of `postFilter` (detect_fire.py
lines 235-248), threading the `(maxFireScore, maxFireSegment)`
accumulator. -/
def innerRowLoop (dbResult : List ScoreRow) (segmentInfo : SegmentInfo)
    (acc : ℚ × Option SegmentInfo) : ℚ × Option SegmentInfo :=
  dbResult.foldl
    (fun a row =>
      if matchesBox row segmentInfo then
        if segmentInfo.score > rowThreshold row ∧ segmentInfo.score > a.1 then
          (segmentInfo.score, some (attachHist segmentInfo row))
        else a
      else a)
    acc

/-- The outer `for segmentInfo in segments` loop of `postFilter`
(detect_fire.py lines 232-248), including the `break` on the first segment
scoring below 0.5. -/
def postFilterLoop (dbResult : List ScoreRow) :
    List SegmentInfo → ℚ × Option SegmentInfo → ℚ × Option SegmentInfo
  | [], acc => acc
  | seg :: rest, acc =>
    if seg.score < 0.5 then acc
    else postFilterLoop dbResult rest (innerRowLoop dbResult seg acc)

/-- Embedding of `postFilter` (detect_fire.py lines 189-250).  The grouped
history-query result is passed as `dbResult`; `segments` is the
descending-sorted segment list.  The source indexes `segments[0]`
unconditionally (callers guarantee a non-empty segment list); the empty case
is mapped to `none` and every theorem below quantifies over non-empty
lists only. -/
def postFilter (dbResult : List ScoreRow) (segments : List SegmentInfo) :
    Option SegmentInfo :=
  match segments with
  | [] => none
  | seg0 :: _ =>
    if seg0.score < 0.5 then none
    else (postFilterLoop dbResult segments (0, none)).2

/-- A segment clears the history filter when some history row matches its
box and its score strictly exceeds that row's threshold. -/
def clearsHistory (dbResult : List ScoreRow) (seg : SegmentInfo) : Prop :=
  ∃ row ∈ dbResult, matchesBox row seg = true ∧ seg.score > rowThreshold row

/-- Boolean version of `clearsHistory`. -/
def clearsHistoryB (dbResult : List ScoreRow) (seg : SegmentInfo) : Bool :=
  dbResult.any (fun row => matchesBox row seg && decide (seg.score > rowThreshold row))

/-- The segment list handed to `postFilter` is sorted by decreasing score
(established by `classify`). -/
def sortedByScoreDesc (segments : List SegmentInfo) : Prop :=
  List.Pairwise (fun a b => b.score ≤ a.score) segments

/-- The grouping key of the history query. -/
def boxOf (row : ScoreRow) : Int × Int × Int × Int :=
  (row.minx, row.miny, row.maxx, row.maxy)

/-- The history rows returned by the `GROUP BY MinX,MinY,MaxX,MaxY` query
have pairwise distinct boxes. -/
def distinctBoxes (dbResult : List ScoreRow) : Prop :=
  (dbResult.map boxOf).Nodup

/-! ## Theorems -/

/-- C2 (amended): `updateTimeTracker` always accumulates the duration; the
averaging reset fires when the accumulated sample count exceeds 50, i.e. on
every 51st recorded sample (not every 50th), replacing `timePerSample` by
`totalTime/numSamples` and zeroing both accumulators; the tracker created by
`initializeTimeTracker` starts with `timePerSample = 3`. -/
theorem updateTimeTracker_spec (tt : TimeTracker) (t : ℚ) :
    (tt.numSamples + 1 > 50 →
      updateTimeTracker tt t =
        { totalTime := 0, numSamples := 0,
          timePerSample := (tt.totalTime + t) / ((tt.numSamples + 1 : ℕ) : ℚ) }) ∧
    (tt.numSamples + 1 ≤ 50 →
      updateTimeTracker tt t =
        { totalTime := tt.totalTime + t, numSamples := tt.numSamples + 1,
          timePerSample := tt.timePerSample }) ∧
    initializeTimeTracker.timePerSample = 3 := by
  refine ⟨fun h => ?_, fun h => ?_, rfl⟩
  · simp only [updateTimeTracker]
    rw [if_pos h]
  · simp only [updateTimeTracker]
    rw [if_neg (by omega)]

/-- Witness for C2: a tracker holding 50 samples totalling 100 seconds,
recording a 51st sample of 2 seconds, resets to the average 2 = 102/51. -/
theorem updateTimeTracker_spec_witness :
    50 + 1 > 50 ∧
      updateTimeTracker { totalTime := 100, numSamples := 50, timePerSample := 3 } 2 =
        { totalTime := 0, numSamples := 0,
          timePerSample := (100 + 2) / ((50 + 1 : ℕ) : ℚ) } :=
  ⟨by omega,
   (updateTimeTracker_spec { totalTime := 100, numSamples := 50, timePerSample := 3 } 2).1
     (by decide)⟩

/-- Counterexample for C2 as stated: starting from the initial tracker,
recording exactly 50 samples of 1 second each does not replace
`timePerSample` (it stays at the initial estimate 3, and the sample counter
stands at 50, not 0): the replacement only happens on the 51st sample. -/
theorem updateTimeTracker_fifty_counterexample :
    (List.foldl updateTimeTracker initializeTimeTracker
        [1, 1, 1, 1, 1, 1, 1, 1, 1, 1,
         1, 1, 1, 1, 1, 1, 1, 1, 1, 1,
         1, 1, 1, 1, 1, 1, 1, 1, 1, 1,
         1, 1, 1, 1, 1, 1, 1, 1, 1, 1,
         1, 1, 1, 1, 1, 1, 1, 1, 1, 1]).timePerSample = 3 ∧
    (List.foldl updateTimeTracker initializeTimeTracker
        [1, 1, 1, 1, 1, 1, 1, 1, 1, 1,
         1, 1, 1, 1, 1, 1, 1, 1, 1, 1,
         1, 1, 1, 1, 1, 1, 1, 1, 1, 1,
         1, 1, 1, 1, 1, 1, 1, 1, 1, 1,
         1, 1, 1, 1, 1, 1, 1, 1, 1, 1]).numSamples = 50 := by
  norm_num [List.foldl_cons, List.foldl_nil, updateTimeTracker, initializeTimeTracker]

/-- C10: with `minusMinutes = 0` or an empty queue, `getDeferrredImgageInfo`
returns `(False, None)` and leaves the queue unchanged, for every time
tracker state and every current time. -/
theorem getDeferrredImgageInfo_inactive (q : List DeferredEntry) (tt : TimeTracker)
    (mm : Int) (now : ℚ) (h : mm = 0 ∨ q = []) :
    getDeferrredImgageInfo q tt mm now = (false, none, q) := by
  rcases h with h | h
  · simp [getDeferrredImgageInfo, h]
  · subst h
    by_cases hmm : mm = 0 <;> simp [getDeferrredImgageInfo, hmm]

/-- Witness for C10: empty queue, `minusMinutes = 7`, arbitrary tracker. -/
theorem getDeferrredImgageInfo_inactive_witness :
    getDeferrredImgageInfo [] initializeTimeTracker 7 1000 = (false, none, []) :=
  getDeferrredImgageInfo_inactive [] initializeTimeTracker 7 1000 (Or.inr rfl)

/-- C5: `checkAndUpdateAlerts` returns `False` and leaves the alerts table
unchanged exactly when some alert row for the same camera has a timestamp
strictly above `timestamp - 7200`; otherwise it appends exactly one new row
and returns `True`.  Consequently a second alert for the same camera at
`t + 7199` after one at `t` is suppressed, while one at `t + 7201` is
allowed. -/
theorem checkAndUpdateAlerts_spec (alerts : List AlertRow) (camera : String)
    (ts : Int) (imageID : String) :
    ((checkAndUpdateAlerts alerts camera ts imageID).1 = false ∧
        (checkAndUpdateAlerts alerts camera ts imageID).2 = alerts ↔
      ∃ r ∈ alerts, r.cameraName = camera ∧ ts - 7200 < r.timestamp) ∧
    ((¬ ∃ r ∈ alerts, r.cameraName = camera ∧ ts - 7200 < r.timestamp) →
      checkAndUpdateAlerts alerts camera ts imageID =
        (true, alerts ++ [{ cameraName := camera, timestamp := ts, imageID := imageID }])) ∧
    (∀ (t : Int) (img0 : String),
      (checkAndUpdateAlerts [{ cameraName := camera, timestamp := t, imageID := img0 }]
          camera (t + 7199) imageID).1 = false ∧
      (checkAndUpdateAlerts [{ cameraName := camera, timestamp := t, imageID := img0 }]
          camera (t + 7201) imageID).1 = true) := by
  have key : ∀ (l : List AlertRow) (ts2 : Int),
      (0 < (l.filter
        (fun r => r.cameraName == camera && decide (ts2 - 60 * 60 * 2 < r.timestamp))).length ↔
      ∃ r ∈ l, r.cameraName = camera ∧ ts2 - 7200 < r.timestamp) := by
    intro l ts2
    rw [List.length_pos, Ne, List.filter_eq_nil_iff]
    push_neg
    constructor
    · rintro ⟨r, hr, hb⟩
      simp only [Bool.and_eq_true, beq_iff_eq, decide_eq_true_eq] at hb
      exact ⟨r, hr, hb.1, by linarith [hb.2]⟩
    · rintro ⟨r, hr, h1, h2⟩
      refine ⟨r, hr, ?_⟩
      simp only [Bool.and_eq_true, beq_iff_eq, decide_eq_true_eq]
      exact ⟨h1, by linarith⟩
  refine ⟨?_, ?_, ?_⟩
  · constructor
    · rintro ⟨h1, _⟩
      by_contra hno
      have hlen : ¬ 0 < (alerts.filter
          (fun r => r.cameraName == camera && decide (ts - 60 * 60 * 2 < r.timestamp))).length :=
        fun hp => hno ((key alerts ts).mp hp)
      simp only [checkAndUpdateAlerts] at h1
      rw [if_neg (by omega)] at h1
      simp at h1
    · intro hex
      have hlen := (key alerts ts).mpr hex
      simp only [checkAndUpdateAlerts]
      rw [if_pos (by omega)]
      exact ⟨rfl, rfl⟩
  · intro hno
    have hlen : ¬ 0 < (alerts.filter
        (fun r => r.cameraName == camera && decide (ts - 60 * 60 * 2 < r.timestamp))).length :=
      fun hp => hno ((key alerts ts).mp hp)
    simp only [checkAndUpdateAlerts]
    rw [if_neg (by omega)]
  · intro t img0
    constructor
    · have hlen := (key [{ cameraName := camera, timestamp := t, imageID := img0 }]
          (t + 7199)).mpr
        ⟨{ cameraName := camera, timestamp := t, imageID := img0 },
          List.mem_singleton.mpr rfl, rfl, show t + 7199 - 7200 < t by omega⟩
      simp only [checkAndUpdateAlerts]
      rw [if_pos (by omega)]
    · have hno : ¬ ∃ r ∈ ([{ cameraName := camera, timestamp := t, imageID := img0 }] :
            List AlertRow),
          r.cameraName = camera ∧ t + 7201 - 7200 < r.timestamp := by
        rintro ⟨r, hr, -, h2⟩
        rw [List.mem_singleton] at hr
        subst hr
        exact absurd h2 (show ¬ t + 7201 - 7200 < t by omega)
      have hlen : ¬ 0 < (List.filter
          (fun r : AlertRow =>
            r.cameraName == camera && decide (t + 7201 - 60 * 60 * 2 < r.timestamp))
          [{ cameraName := camera, timestamp := t, imageID := img0 }]).length :=
        fun hp => hno ((key [{ cameraName := camera, timestamp := t, imageID := img0 }]
          (t + 7201)).mp hp)
      simp only [checkAndUpdateAlerts]
      rw [if_neg (by omega)]

/-- Witness for C5: one prior alert for camera `"peak1"` at time 1000;
a new alert for the same camera at time 2000 (within the 7200-second
window) is suppressed and the ledger is unchanged. -/
theorem checkAndUpdateAlerts_spec_witness :
    (checkAndUpdateAlerts [{ cameraName := "peak1", timestamp := 1000, imageID := "a" }]
        "peak1" 2000 "b").1 = false ∧
    (checkAndUpdateAlerts [{ cameraName := "peak1", timestamp := 1000, imageID := "a" }]
        "peak1" 2000 "b").2 =
      [{ cameraName := "peak1", timestamp := 1000, imageID := "a" }] :=
  ((checkAndUpdateAlerts_spec
      [{ cameraName := "peak1", timestamp := 1000, imageID := "a" }] "peak1" 2000 "b").1).mpr
    ⟨{ cameraName := "peak1", timestamp := 1000, imageID := "a" },
      List.mem_singleton.mpr rfl, rfl, by decide⟩

/-- C6: when the refetched image of a deferred entry has an unchanged
content hash, `genDiffImageFromDeferred` produces no image, and the entry is
discarded (queue left unchanged, local file deleted) if and only if
`oldWait + elapsed ≥ min (2*minusMinutes*60) 300`; otherwise it is
re-appended at the tail with its timestamp refreshed and the elapsed time
added to its accumulated wait.  For `minusMinutes = 10` the bound is 300
seconds, for `minusMinutes = 1` it is 120 seconds. -/
theorem genDiffImageFromDeferred_unchanged_spec (e : DeferredEntry)
    (q : List DeferredEntry) (mm nt : Int) :
    ((genDiffImageFromDeferred e q mm nt e.md5).2 = q ↔
        min (2 * mm * 60) 300 ≤ e.oldWait + (nt - e.timestamp)) ∧
    (genDiffImageFromDeferred e q mm nt e.md5).1 = none ∧
    (e.oldWait + (nt - e.timestamp) < min (2 * mm * 60) 300 →
        genDiffImageFromDeferred e q mm nt e.md5 =
          (none, q ++ [{ e with
            timestamp := nt,
            oldWait := e.oldWait + (nt - e.timestamp) }])) ∧
    min (2 * (10 : Int) * 60) 300 = 300 ∧ min (2 * (1 : Int) * 60) 300 = 120 := by
  have hb : min (2 * 60 * mm) (5 * 60) = min (2 * mm * 60) 300 := by
    have h1 : 2 * 60 * mm = 2 * mm * 60 := by ring
    rw [h1]
    norm_num
  refine ⟨?_, ?_, ?_, by decide, by decide⟩
  · simp only [genDiffImageFromDeferred, beq_self_eq_true, if_true, hb]
    constructor
    · intro h2
      by_contra hlt
      rw [if_pos (by omega)] at h2
      have := congrArg List.length h2
      simp at this
    · intro hge
      rw [if_neg (by omega)]
  · simp only [genDiffImageFromDeferred, beq_self_eq_true, if_true]
    split <;> rfl
  · intro hlt
    simp only [genDiffImageFromDeferred, beq_self_eq_true, if_true, hb]
    rw [if_pos (by omega)]

/-- Witness for C6: entry captured at time 1000 with 0 accumulated wait,
refetched unchanged at time 1050 with `minusMinutes = 1` (bound 120):
50 < 120, so it is re-queued at the tail with timestamp 1050 and wait 50. -/
theorem genDiffImageFromDeferred_unchanged_spec_witness :
    (0 : Int) + (1050 - 1000) < min (2 * 1 * 60) 300 ∧
      genDiffImageFromDeferred
          { timestamp := 1000, cameraID := "peak1", imgPath := "p", md5 := "h", oldWait := 0 }
          [] 1 1050 "h" =
        (none,
          [] ++ [{ timestamp := 1050, cameraID := "peak1", imgPath := "p", md5 := "h",
                   oldWait := 0 + (1050 - 1000) }]) :=
  ⟨by decide,
   (genDiffImageFromDeferred_unchanged_spec
      { timestamp := 1000, cameraID := "peak1", imgPath := "p", md5 := "h", oldWait := 0 }
      [] 1 1050).2.2.1 (by decide)⟩

/-- C7: for a non-empty queue and non-zero `minusMinutes`,
`getDeferrredImgageInfo` reports the queue full iff
`queueLength * timePerSample ≥ minusMinutes * 60` (equality included); it
removes and returns the head entry iff the queue is full or the head entry
is older than `minusMinutes * 60` seconds; otherwise it returns `none` and
leaves the queue unchanged. -/
theorem getDeferrredImgageInfo_spec (img : DeferredEntry) (rest : List DeferredEntry)
    (timeTracker : TimeTracker) (mm : Int) (now : ℚ) (hmm : mm ≠ 0) :
    ((getDeferrredImgageInfo (img :: rest) timeTracker mm now).1 = true ↔
        (mm : ℚ) * 60 ≤ ((img :: rest).length : ℚ) * timeTracker.timePerSample) ∧
    ((getDeferrredImgageInfo (img :: rest) timeTracker mm now).2 = (some img, rest) ↔
        ((getDeferrredImgageInfo (img :: rest) timeTracker mm now).1 = true ∨
          (img.timestamp : ℚ) + (mm : ℚ) * 60 < now)) ∧
    (¬ ((getDeferrredImgageInfo (img :: rest) timeTracker mm now).1 = true ∨
          (img.timestamp : ℚ) + (mm : ℚ) * 60 < now) →
        getDeferrredImgageInfo (img :: rest) timeTracker mm now =
          (false, none, img :: rest)) := by
  have hsec : (((60 * mm : Int)) : ℚ) = (mm : ℚ) * 60 := by
    push_cast
    ring
  by_cases hA : (mm : ℚ) * 60 ≤ ((rest.length : ℚ) + 1) * timeTracker.timePerSample <;>
    by_cases hB : (img.timestamp : ℚ) + (mm : ℚ) * 60 < now <;>
    simp [getDeferrredImgageInfo, expectedDrainSeconds, hmm, hsec, hA, hB]

/-- Witness for C7: `minusMinutes = 1`, a single entry of age 30 seconds at
`now = 1030`, default tracker (`timePerSample = 3`): `1 * 3 < 60` so the
queue is not full, and `1000 + 60 ≥ 1030` so the head is not old enough;
the queue is untouched. -/
theorem getDeferrredImgageInfo_spec_witness :
    (1 : Int) ≠ 0 ∧
      getDeferrredImgageInfo
          [{ timestamp := 1000, cameraID := "peak1", imgPath := "p", md5 := "h", oldWait := 0 }]
          initializeTimeTracker 1 1030 =
        (false, none,
          [{ timestamp := 1000, cameraID := "peak1", imgPath := "p", md5 := "h",
             oldWait := 0 }]) :=
  by
    have h := getDeferrredImgageInfo_spec
      { timestamp := 1000, cameraID := "peak1", imgPath := "p", md5 := "h", oldWait := 0 }
      [] initializeTimeTracker 1 1030 (by decide)
    refine ⟨by decide, h.2.2 ?_⟩
    rintro (h1 | h1)
    · have h2 := h.1.mp h1
      norm_num [initializeTimeTracker] at h2
    · norm_num at h1

/-- C8: the deferred-image queue contains at most one entry per `cameraID`.
`addToDeferredImages` appends a new entry only when no entry for that camera
is present (and otherwise leaves the queue unchanged), so it preserves the
invariant; resolving the dequeued head entry with
`genDiffImageFromDeferred` (which may re-append that single removed entry)
preserves it as well, as does the dequeue step itself. -/
theorem deferredQueue_uniqueCameraIDs_invariant :
    (∀ (q : List DeferredEntry) (cid : String) (ts : Int) (p m : String),
        uniqueCameraIDs q → uniqueCameraIDs (addToDeferredImages q cid ts p m)) ∧
    (∀ (q : List DeferredEntry) (cid : String) (ts : Int) (p m : String),
        (∃ e ∈ q, e.cameraID = cid) → addToDeferredImages q cid ts p m = q) ∧
    (∀ (img : DeferredEntry) (rest : List DeferredEntry) (mm nt : Int) (nmd5 : String),
        uniqueCameraIDs (img :: rest) →
        uniqueCameraIDs (genDiffImageFromDeferred img rest mm nt nmd5).2) ∧
    (∀ (q : List DeferredEntry) (tt : TimeTracker) (mm : Int) (now : ℚ),
        uniqueCameraIDs q → uniqueCameraIDs (getDeferrredImgageInfo q tt mm now).2.2) := by
  refine ⟨?_, ?_, ?_, ?_⟩
  · intro q cid ts p m hq
    simp only [addToDeferredImages]
    split
    · exact hq
    · next hlen =>
      have hfil : q.filter (fun x => x.cameraID == cid) = [] :=
        List.length_eq_zero.mp (by omega)
      have hnone : ∀ e ∈ q, ¬ (e.cameraID == cid) = true := List.filter_eq_nil_iff.mp hfil
      have hnotin : cid ∉ q.map (fun e => e.cameraID) := by
        intro hmem
        obtain ⟨e, he, heq⟩ := List.mem_map.mp hmem
        exact hnone e he (by simp [heq])
      simp only [uniqueCameraIDs, List.map_append, List.map_cons, List.map_nil,
        List.nodup_append, List.nodup_cons, List.nodup_nil, List.disjoint_singleton]
      exact ⟨hq, ⟨List.not_mem_nil _, trivial⟩, hnotin⟩
  · intro q cid ts p m hex
    obtain ⟨e, he, heq⟩ := hex
    simp only [addToDeferredImages]
    rw [if_pos ?_]
    have : e ∈ q.filter (fun x => x.cameraID == cid) :=
      List.mem_filter.mpr ⟨he, by simp [heq]⟩
    have := List.length_pos.mpr (List.ne_nil_of_mem this)
    omega
  · intro img rest mm nt nmd5 hq
    simp only [uniqueCameraIDs, List.map_cons, List.nodup_cons] at hq
    obtain ⟨hnotin, hrest⟩ := hq
    simp only [genDiffImageFromDeferred]
    split
    · split
      · simp only [uniqueCameraIDs, List.map_append, List.map_cons, List.map_nil,
          List.nodup_append, List.nodup_cons, List.nodup_nil, List.disjoint_singleton]
        exact ⟨hrest, ⟨List.not_mem_nil _, trivial⟩, hnotin⟩
      · exact hrest
    · exact hrest
  · intro q tt mm now hq
    by_cases hmm : mm = 0
    · simp [getDeferrredImgageInfo, hmm, hq]
    · match q with
      | [] => simp [getDeferrredImgageInfo, hmm, uniqueCameraIDs]
      | img :: rest =>
        simp only [getDeferrredImgageInfo, if_neg hmm]
        split
        · exact (List.nodup_cons.mp hq).2
        · exact hq

/-- Unfolding lemma: one step of the inner row loop. -/
theorem innerRowLoop_cons (r : ScoreRow) (rs : List ScoreRow) (seg : SegmentInfo)
    (acc : ℚ × Option SegmentInfo) :
    innerRowLoop (r :: rs) seg acc =
      innerRowLoop rs seg
        (if matchesBox r seg then
          if seg.score > rowThreshold r ∧ seg.score > acc.1 then
            (seg.score, some (attachHist seg r))
          else acc
         else acc) := rfl

/-- The inner row loop leaves the accumulator unchanged when no row can beat
it: every matching row whose threshold the segment clears already has
`seg.score ≤ acc.1`. -/
theorem innerRowLoop_no_update (dbResult : List ScoreRow) (seg : SegmentInfo)
    (acc : ℚ × Option SegmentInfo)
    (h : ∀ row ∈ dbResult, matchesBox row seg = true → rowThreshold row < seg.score →
      seg.score ≤ acc.1) :
    innerRowLoop dbResult seg acc = acc := by
  induction dbResult with
  | nil => rfl
  | cons r rs ih =>
    rw [innerRowLoop_cons]
    have hstep : (if matchesBox r seg then
        if seg.score > rowThreshold r ∧ seg.score > acc.1 then
          (seg.score, some (attachHist seg r))
        else acc
       else acc) = acc := by
      by_cases hm : matchesBox r seg = true
      · rw [if_pos hm, if_neg ?_]
        rintro ⟨h1, h2⟩
        exact absurd (h r (List.mem_cons_self r rs) hm h1) (not_le.mpr h2)
      · rw [if_neg hm]
    rw [hstep]
    exact ih (fun row hrow => h row (List.mem_cons_of_mem r hrow))

/-- Two rows matching the same segment have the same grouping box. -/
theorem matchesBox_same_box {r1 r2 : ScoreRow} {seg : SegmentInfo}
    (h1 : matchesBox r1 seg = true) (h2 : matchesBox r2 seg = true) :
    boxOf r1 = boxOf r2 := by
  simp only [matchesBox, Bool.and_eq_true, beq_iff_eq] at h1 h2
  obtain ⟨⟨⟨a1, b1⟩, c1⟩, d1⟩ := h1
  obtain ⟨⟨⟨a2, b2⟩, c2⟩, d2⟩ := h2
  simp [boxOf, a1, b1, c1, d1, a2, b2, c2, d2]

/-- When the rows have pairwise distinct boxes and some row matches the
segment, clears its threshold and beats the accumulator, the inner row loop
returns that row's enriched segment. -/
theorem innerRowLoop_update (dbResult : List ScoreRow) (seg : SegmentInfo)
    (acc : ℚ × Option SegmentInfo) (row : ScoreRow)
    (hnodup : distinctBoxes dbResult) (hrow : row ∈ dbResult)
    (hm : matchesBox row seg = true) (hth : rowThreshold row < seg.score)
    (hgt : acc.1 < seg.score) :
    innerRowLoop dbResult seg acc = (seg.score, some (attachHist seg row)) := by
  induction dbResult generalizing acc with
  | nil => cases hrow
  | cons r rs ih =>
    rw [innerRowLoop_cons]
    by_cases hm0 : matchesBox r seg = true
    · have hreq : r = row := by
        rcases List.mem_cons.mp hrow with h | h
        · exact h.symm
        · exfalso
          have hbox : boxOf row = boxOf r := matchesBox_same_box hm hm0
          have hmem : boxOf r ∈ rs.map boxOf := hbox ▸ List.mem_map_of_mem boxOf h
          exact (List.nodup_cons.mp hnodup).1 hmem
      subst hreq
      rw [if_pos hm0, if_pos ⟨hth, hgt⟩]
      exact innerRowLoop_no_update rs seg _ (fun _ _ _ _ => le_refl _)
    · have hmem : row ∈ rs := by
        rcases List.mem_cons.mp hrow with h | h
        · exact absurd (h ▸ hm) hm0
        · exact h
      rw [if_neg hm0]
      exact ih acc (List.nodup_cons.mp hnodup).2 hmem hgt

/-- Unfolding lemma: the outer segment loop on the empty list. -/
theorem postFilterLoop_nil (dbResult : List ScoreRow) (acc : ℚ × Option SegmentInfo) :
    postFilterLoop dbResult [] acc = acc := rfl

/-- Unfolding lemma: one step of the outer segment loop. -/
theorem postFilterLoop_cons (dbResult : List ScoreRow) (seg : SegmentInfo)
    (rest : List SegmentInfo) (acc : ℚ × Option SegmentInfo) :
    postFilterLoop dbResult (seg :: rest) acc =
      if seg.score < 0.5 then acc
      else postFilterLoop dbResult rest (innerRowLoop dbResult seg acc) := rfl

/-- The outer loop leaves the accumulator unchanged when no segment in the
list can beat it. -/
theorem postFilterLoop_no_clear (dbResult : List ScoreRow) (segs : List SegmentInfo)
    (acc : ℚ × Option SegmentInfo)
    (h : ∀ s ∈ segs, ∀ row ∈ dbResult, matchesBox row s = true →
      rowThreshold row < s.score → s.score ≤ acc.1) :
    postFilterLoop dbResult segs acc = acc := by
  induction segs with
  | nil => rfl
  | cons s rest ih =>
    rw [postFilterLoop_cons]
    by_cases hlow : s.score < 0.5
    · rw [if_pos hlow]
    · rw [if_neg hlow, innerRowLoop_no_update dbResult s acc
        (h s (List.mem_cons_self s rest))]
      exact ih (fun s2 h2 => h s2 (List.mem_cons_of_mem s h2))

/-- `clearsHistoryB` decides `clearsHistory`. -/
theorem clearsHistoryB_iff (dbResult : List ScoreRow) (seg : SegmentInfo) :
    clearsHistoryB dbResult seg = true ↔ clearsHistory dbResult seg := by
  simp [clearsHistoryB, clearsHistory, List.any_eq_true, Bool.and_eq_true,
    decide_eq_true_eq]

/-- Every row threshold is at least 0.5 when the historical maximum is
non-negative. -/
theorem rowThreshold_ge_half (row : ScoreRow) (h : 0 ≤ row.maxs) :
    (0.5 : ℚ) ≤ rowThreshold row := by
  have h1 : (0.5 : ℚ) ≤ (row.maxs + 1) / 2 := by
    rw [le_div_iff₀ (by norm_num : (0 : ℚ) < 2)]
    norm_num [h]
  exact le_trans h1 (le_max_left _ _)

/-- A segment that clears some row's threshold scores strictly above 0.5
(when historical maxima are non-negative). -/
theorem clearsHistory_score_gt_half (dbResult : List ScoreRow) (seg : SegmentInfo)
    (hpos : ∀ row ∈ dbResult, 0 ≤ row.maxs) (h : clearsHistory dbResult seg) :
    (0.5 : ℚ) < seg.score := by
  obtain ⟨row, hrow, hm, hth⟩ := h
  exact lt_of_le_of_lt (rowThreshold_ge_half row (hpos row hrow)) hth

/-- Core lemma: with distinct boxes and non-negative historical maxima, the
outer loop started on `(0, none)` returns the first clearing segment of a
sorted list, enriched with the statistics of its matching row. -/
theorem postFilterLoop_find_some (dbResult : List ScoreRow)
    (hnodup : distinctBoxes dbResult) (hpos : ∀ row ∈ dbResult, 0 ≤ row.maxs) :
    ∀ (segs : List SegmentInfo), sortedByScoreDesc segs →
      ∀ s, segs.find? (fun s2 => clearsHistoryB dbResult s2) = some s →
      ∃ row ∈ dbResult, matchesBox row s = true ∧ rowThreshold row < s.score ∧
        postFilterLoop dbResult segs (0, none) = (s.score, some (attachHist s row)) := by
  intro segs
  induction segs with
  | nil =>
    intro _ s hs
    simp at hs
  | cons s0 rest ih =>
    intro hsorted s hfind
    by_cases hc : clearsHistoryB dbResult s0 = true
    · rw [List.find?_cons_of_pos _ hc] at hfind
      have heq : s0 = s := by injection hfind
      subst heq
      have hclear : clearsHistory dbResult s0 := (clearsHistoryB_iff _ _).mp hc
      obtain ⟨row, hrow, hm, hth⟩ := hclear
      have hhalf : (0.5 : ℚ) ≤ rowThreshold row := rowThreshold_ge_half row (hpos row hrow)
      refine ⟨row, hrow, hm, hth, ?_⟩
      rw [postFilterLoop_cons, if_neg (by linarith : ¬ s0.score < 0.5),
        innerRowLoop_update dbResult s0 (0, none) row hnodup hrow hm hth
          (show (0 : ℚ) < s0.score by linarith)]
      exact postFilterLoop_no_clear dbResult rest _
        (fun s2 hs2 _ _ _ _ => (List.pairwise_cons.mp hsorted).1 s2 hs2)
    · rw [List.find?_cons_of_neg _ hc] at hfind
      have hnc : ¬ clearsHistory dbResult s0 := fun h => hc ((clearsHistoryB_iff _ _).mpr h)
      have hsorted2 := (List.pairwise_cons.mp hsorted).2
      by_cases hlow : s0.score < 0.5
      · exfalso
        have hmem : s ∈ rest := List.mem_of_find?_eq_some hfind
        have hcs : clearsHistory dbResult s := (clearsHistoryB_iff _ _).mp (List.find?_some hfind)
        have hgt := clearsHistory_score_gt_half dbResult s hpos hcs
        have hle : s.score ≤ s0.score := (List.pairwise_cons.mp hsorted).1 s hmem
        linarith
      · obtain ⟨row, hrow, hm, hth, hloop⟩ := ih hsorted2 s hfind
        refine ⟨row, hrow, hm, hth, ?_⟩
        rw [postFilterLoop_cons, if_neg hlow,
          innerRowLoop_no_update dbResult s0 (0, none)
            (fun row2 hrow2 hm2 hth2 => absurd ⟨row2, hrow2, hm2, hth2⟩ hnc)]
        exact hloop

/-- With a sorted segment list, the segment located by `find?` has the
highest score among all clearing segments. -/
theorem find?_first_clearing_max (dbResult : List ScoreRow) :
    ∀ (segs : List SegmentInfo), sortedByScoreDesc segs →
      ∀ s, segs.find? (fun s2 => clearsHistoryB dbResult s2) = some s →
      ∀ s2 ∈ segs, clearsHistory dbResult s2 → s2.score ≤ s.score := by
  intro segs
  induction segs with
  | nil =>
    intro _ s hs
    simp at hs
  | cons s0 rest ih =>
    intro hsorted s hfind s2 hs2 hcs2
    by_cases hc : clearsHistoryB dbResult s0 = true
    · rw [List.find?_cons_of_pos _ hc] at hfind
      have heq : s0 = s := by injection hfind
      subst heq
      rcases List.mem_cons.mp hs2 with h | h
      · rw [h]
      · exact (List.pairwise_cons.mp hsorted).1 s2 h
    · rw [List.find?_cons_of_neg _ hc] at hfind
      rcases List.mem_cons.mp hs2 with h | h
      · exact absurd ((clearsHistoryB_iff _ _).mpr (h ▸ hcs2)) hc
      · exact ih (List.pairwise_cons.mp hsorted).2 s hfind s2 h hcs2

/-- C9: for every non-empty descending-sorted segment list whose highest
score (the head) is strictly below 0.5, `postFilter` returns `none`
immediately, for any history content (the result does not depend on the
history rows, embedding the fact that the source returns before issuing the
history query). -/
theorem postFilter_lowMax_none (seg0 : SegmentInfo) (rest : List SegmentInfo)
    (hsorted : sortedByScoreDesc (seg0 :: rest)) (hlow : seg0.score < 0.5) :
    ∀ dbResult : List ScoreRow, postFilter dbResult (seg0 :: rest) = none := by
  intro dbResult
  simp only [postFilter]
  rw [if_pos hlow]

/-- Witness for C9: a single segment scoring 0.4, with a history row whose
statistics are irrelevant. -/
theorem postFilter_lowMax_none_witness :
    sortedByScoreDesc
      [{ minX := 0, minY := 0, maxX := 100, maxY := 100, score := 0.4 }] ∧
    ({ minX := 0, minY := 0, maxX := 100, maxY := 100, score := 0.4 } :
      SegmentInfo).score < 0.5 ∧
    postFilter
      [{ minx := 0, miny := 0, maxx := 100, maxy := 100, cnt := 3, avgs := 0.9, maxs := 0.9 }]
      [{ minX := 0, minY := 0, maxX := 100, maxY := 100, score := 0.4 }] = none :=
  ⟨by simp [sortedByScoreDesc], show (0.4 : ℚ) < 0.5 by norm_num,
   postFilter_lowMax_none _ [] (by simp [sortedByScoreDesc])
     (show (0.4 : ℚ) < 0.5 by norm_num) _⟩

/-- Counterexample for C1 as stated: with an empty history result and
sorted scores `[0.92, 0.3]`, `postFilter` returns `none` — the 0.92 segment
is not selected and no Detection is recorded, because the inner loop over
the (empty) history rows never assigns `maxFireSegment`. -/
theorem postFilter_emptyHistory_counterexample :
    postFilter []
      [{ minX := 0, minY := 0, maxX := 100, maxY := 100, score := 0.92 },
       { minX := 100, minY := 0, maxX := 200, maxY := 100, score := 0.3 }] = none := by
  norm_num [postFilter, postFilterLoop_cons, postFilterLoop_nil, innerRowLoop,
    List.foldl_nil]

/-- C1 (amended): for a camera with no historical score rows (the history
query returns an empty result), `postFilter` returns `none` for every
segment list, whatever the classifier scores are: a segment can only be
selected when some matching history row exists whose threshold it beats, so
no Detection is recorded for a camera without history. -/
theorem postFilter_emptyHistory_none (segments : List SegmentInfo) :
    postFilter [] segments = none := by
  cases segments with
  | nil => rfl
  | cons seg0 rest =>
    simp only [postFilter]
    by_cases hlow : seg0.score < 0.5
    · rw [if_pos hlow]
    · rw [if_neg hlow, postFilterLoop_no_clear [] (seg0 :: rest) (0, none)
        (fun s _ row hrow _ _ => absurd hrow (List.not_mem_nil row))]

/-- C3: the effective detection threshold that `postFilter` computes for a
history row equals `max ((histMax + 1)/2) (histMax + 0.2)`: a segment with a
matching row is selected exactly when its score strictly exceeds that value;
`histMax = 0.6` gives threshold 0.8 and `histMax = 0.9` gives threshold
1.1. -/
theorem rowThreshold_spec :
    (∀ row : ScoreRow, rowThreshold row = max ((row.maxs + 1) / 2) (row.maxs + 0.2)) ∧
    (∀ row : ScoreRow, row.maxs = 0.6 → rowThreshold row = 0.8) ∧
    (∀ row : ScoreRow, row.maxs = 0.9 → rowThreshold row = 1.1) ∧
    (∀ (row : ScoreRow) (seg : SegmentInfo), matchesBox row seg = true → 0 ≤ row.maxs →
      (postFilter [row] [seg] = some (attachHist seg row) ↔
        max ((row.maxs + 1) / 2) (row.maxs + 0.2) < seg.score)) := by
  have hdef : ∀ row : ScoreRow, rowThreshold row = max ((row.maxs + 1) / 2) (row.maxs + 0.2) :=
    fun _ => rfl
  refine ⟨hdef, ?_, ?_, ?_⟩
  · intro row h
    rw [hdef, h]
    norm_num
  · intro row h
    rw [hdef, h]
    norm_num
  · intro row seg hm hpos0
    rw [← hdef row]
    constructor
    · intro hsome
      by_contra hth
      push_neg at hth
      by_cases hlow : seg.score < 0.5
      · simp only [postFilter] at hsome
        rw [if_pos hlow] at hsome
        exact Option.noConfusion hsome
      · have hnoup : ∀ row2 ∈ [row], matchesBox row2 seg = true →
            rowThreshold row2 < seg.score →
            seg.score ≤ ((0 : ℚ), (none : Option SegmentInfo)).1 := by
          intro row2 hrow2 _ hth2
          rw [List.mem_singleton.mp hrow2] at hth2
          exact absurd hth2 (not_lt.mpr hth)
        simp only [postFilter] at hsome
        rw [if_neg hlow, postFilterLoop_cons, if_neg hlow,
          innerRowLoop_no_update [row] seg (0, none) hnoup, postFilterLoop_nil] at hsome
        exact Option.noConfusion hsome
    · intro hth
      have hhalf := rowThreshold_ge_half row hpos0
      simp only [postFilter]
      rw [if_neg (by linarith : ¬ seg.score < 0.5), postFilterLoop_cons,
        if_neg (by linarith : ¬ seg.score < 0.5),
        innerRowLoop_update [row] seg (0, none) row (by simp [distinctBoxes])
          (List.mem_singleton.mpr rfl) hm hth (show (0 : ℚ) < seg.score by linarith),
        postFilterLoop_nil]

/-- Witness for C3: a row with `maxs = 0.6` has threshold 0.8. -/
theorem rowThreshold_spec_witness :
    ({ minx := 0, miny := 0, maxx := 10, maxy := 10, cnt := 4, avgs := 0.5, maxs := 0.6 } :
      ScoreRow).maxs = 0.6 ∧
    rowThreshold
      { minx := 0, miny := 0, maxx := 10, maxy := 10, cnt := 4, avgs := 0.5,
        maxs := 0.6 } = 0.8 :=
  ⟨rfl, rowThreshold_spec.2.1 _ rfl⟩

/-- C4: among the input segments scoring above 0.5 whose score also exceeds
their box's history-derived threshold (`clearsHistory`), `postFilter`
returns the one with the highest absolute score, with the matching row's
`histAvg`/`histMax`/`histSampleCount` attached, and returns `none` if no
segment clears its threshold.  In particular a segment scoring 0.85 over a
box whose historical maximum is 0.75 (threshold `max (0.875) (0.95) =
0.95`) is not selected.  Hypotheses: the input is sorted by decreasing
score (established by `classify`), the history rows have pairwise distinct
boxes (they come from a `GROUP BY` on the box), and historical maxima are
non-negative (scores are probabilities). -/
theorem postFilter_selects_highest (dbResult : List ScoreRow) (segments : List SegmentInfo)
    (hsorted : sortedByScoreDesc segments) (hnodup : distinctBoxes dbResult)
    (hpos : ∀ row ∈ dbResult, 0 ≤ row.maxs) :
    ((∀ s ∈ segments, ¬ clearsHistory dbResult s) → postFilter dbResult segments = none) ∧
    (∀ s, segments.find? (fun s2 => clearsHistoryB dbResult s2) = some s →
      (0.5 : ℚ) < s.score ∧
      (∀ s2 ∈ segments, clearsHistory dbResult s2 → s2.score ≤ s.score) ∧
      ∃ row ∈ dbResult, matchesBox row s = true ∧ rowThreshold row < s.score ∧
        postFilter dbResult segments = some (attachHist s row)) ∧
    (∀ (row : ScoreRow) (seg : SegmentInfo), matchesBox row seg = true →
      row.maxs = 0.75 → seg.score = 0.85 → postFilter [row] [seg] = none) := by
  refine ⟨?_, ?_, ?_⟩
  · intro hno
    cases segments with
    | nil => rfl
    | cons seg0 rest =>
      simp only [postFilter]
      by_cases hlow : seg0.score < 0.5
      · rw [if_pos hlow]
      · rw [if_neg hlow, postFilterLoop_no_clear dbResult (seg0 :: rest) (0, none)
          (fun s hs row hrow hm hth => absurd ⟨row, hrow, hm, hth⟩ (hno s hs))]
  · intro s hfind
    obtain ⟨row, hrow, hm, hth, hloop⟩ :=
      postFilterLoop_find_some dbResult hnodup hpos segments hsorted s hfind
    have hcs : clearsHistory dbResult s := ⟨row, hrow, hm, hth⟩
    have hhalf := clearsHistory_score_gt_half dbResult s hpos hcs
    refine ⟨hhalf, find?_first_clearing_max dbResult segments hsorted s hfind,
      row, hrow, hm, hth, ?_⟩
    cases segments with
    | nil => exact absurd hfind (by simp)
    | cons seg0 rest =>
      have hmem : s ∈ seg0 :: rest := List.mem_of_find?_eq_some hfind
      have hle : s.score ≤ seg0.score := by
        rcases List.mem_cons.mp hmem with h | h
        · rw [h]
        · exact (List.pairwise_cons.mp hsorted).1 s h
      simp only [postFilter]
      rw [if_neg (by linarith : ¬ seg0.score < 0.5), hloop]
  · intro row seg hm hmax hscore
    have hth : ¬ (rowThreshold row < seg.score) := by
      simp only [rowThreshold]
      rw [hmax, hscore]
      norm_num
    have hnoup : ∀ row2 ∈ [row], matchesBox row2 seg = true →
        rowThreshold row2 < seg.score →
        seg.score ≤ ((0 : ℚ), (none : Option SegmentInfo)).1 := by
      intro row2 hrow2 _ hth2
      rw [List.mem_singleton.mp hrow2] at hth2
      exact absurd hth2 hth
    by_cases hlow : seg.score < 0.5
    · simp only [postFilter]
      rw [if_pos hlow]
    · simp only [postFilter]
      rw [if_neg hlow, postFilterLoop_cons, if_neg hlow,
        innerRowLoop_no_update [row] seg (0, none) hnoup, postFilterLoop_nil]

/-- Witness for C4: one history row with `maxs = 0.75` over box
`(0,0,100,100)` and one segment scoring 0.85 on that box: the segment does
not clear the 0.95 threshold, so no segment clears and `postFilter` returns
`none`. -/
theorem postFilter_selects_highest_witness :
    sortedByScoreDesc
      [{ minX := 0, minY := 0, maxX := 100, maxY := 100, score := 0.85 }] ∧
    distinctBoxes
      [{ minx := 0, miny := 0, maxx := 100, maxy := 100, cnt := 6, avgs := 0.4,
         maxs := 0.75 }] ∧
    (∀ row ∈ [({ minx := 0, miny := 0, maxx := 100, maxy := 100, cnt := 6, avgs := 0.4,
                 maxs := 0.75 } : ScoreRow)], 0 ≤ row.maxs) ∧
    postFilter
      [{ minx := 0, miny := 0, maxx := 100, maxy := 100, cnt := 6, avgs := 0.4,
         maxs := 0.75 }]
      [{ minX := 0, minY := 0, maxX := 100, maxY := 100, score := 0.85 }] = none := by
  have hs : sortedByScoreDesc
      [{ minX := 0, minY := 0, maxX := 100, maxY := 100, score := 0.85 }] := by
    simp [sortedByScoreDesc]
  have hd : distinctBoxes
      [{ minx := 0, miny := 0, maxx := 100, maxy := 100, cnt := 6, avgs := 0.4,
         maxs := 0.75 }] := by
    simp [distinctBoxes]
  have hp : ∀ row ∈ [({ minx := 0, miny := 0, maxx := 100, maxy := 100, cnt := 6, avgs := 0.4,
                        maxs := 0.75 } : ScoreRow)], 0 ≤ row.maxs := by
    intro row hrow
    rw [List.mem_singleton.mp hrow]
    norm_num
  refine ⟨hs, hd, hp, ?_⟩
  exact (postFilter_selects_highest _ _ hs hd hp).2.2
    { minx := 0, miny := 0, maxx := 100, maxy := 100, cnt := 6, avgs := 0.4, maxs := 0.75 }
    { minX := 0, minY := 0, maxX := 100, maxY := 100, score := 0.85 }
    (by simp [matchesBox]) rfl rfl

/-- Witness for C8: adding camera `"peak2"` to a singleton queue holding
`"peak1"` preserves the invariant. -/
theorem deferredQueue_uniqueCameraIDs_invariant_witness :
    uniqueCameraIDs
      [{ timestamp := 10, cameraID := "peak1", imgPath := "p", md5 := "h", oldWait := 0 }] ∧
    uniqueCameraIDs (addToDeferredImages
      [{ timestamp := 10, cameraID := "peak1", imgPath := "p", md5 := "h", oldWait := 0 }]
      "peak2" 20 "p2" "h2") :=
  ⟨by simp [uniqueCameraIDs],
   deferredQueue_uniqueCameraIDs_invariant.1
     [{ timestamp := 10, cameraID := "peak1", imgPath := "p", md5 := "h", oldWait := 0 }]
     "peak2" 20 "p2" "h2" (by simp [uniqueCameraIDs])⟩

end Firecam
